import Mathlib

/-!
Shallow embedding of the `ecstatic_system` registry (`src/lib.rs`).

The Rust code maintains a `HashMap<String, Vec<ThreadHandle>>` mapping
category names to worker handles.  Each handle owns the sending side of a
bounded `sync_channel(60)` and the join handle of a worker thread that
loops: receive a token, invoke the callback once per token, exit when the
channel is closed (all senders dropped).

Embedding choices:
* The `HashMap` becomes an association list `List (String × List ThreadHandle)`;
  the operations below (`lookupCat`, `pushCat`, `updateCat`, `eraseCat`)
  mirror `get`/`get_mut`+`push`, in-place mutation and `remove` on the first
  matching key (a `HashMap` has at most one entry per key).
* A channel's state is folded into the handle: `sent` counts the tokens that
  were successfully pushed into this worker's channel, `capacity` records the
  bound passed to `sync_channel` (60).  A bounded send blocks when the buffer
  is full but never drops a token, so in every terminating execution a send
  simply increments `sent`.
* The caller-supplied `data`/callback pair is abstracted by the one bit of
  behaviour the registry can observe: whether the callback panics when
  invoked (`panics`).  The registry never inspects the data.
* Worker-thread progress is observed only at join time: `drop_join_category`
  blocks until the worker has drained its queue and exited, so the callback
  invocations of a worker are credited to the ghost counter `invocations`
  when its thread is joined.  A worker whose callback panics dies during its
  first invocation and its `join()` returns an error value, which the model
  carries explicitly (the Rust code discards it).
* A Rust panic of a registry operation itself (a failing `.unwrap()`) is
  modelled by the operation returning `none`.
-/

/-- Capacity of the bounded channel allocated by `static_system_create`
(`mpsc::sync_channel(60)`). -/
def sync_channel_capacity : Nat := 60

/-- One worker handle: `sx`/`join_handle` are the two `Option` fields of the
Rust struct; `capacity`, `sent` and `panics` carry the state of the channel
and thread the handle owns (see the module docstring). -/
structure ThreadHandle where
  sx : Option Unit
  join_handle : Option Unit
  capacity : Nat
  sent : Nat
  panics : Bool
  deriving DecidableEq, Repr

/-- The registry: the `handles` map plus the ghost counter of callback
invocations completed so far (credited at join time). -/
structure EcstaticSystems where
  handles : List (String × List ThreadHandle)
  invocations : Nat
  deriving DecidableEq, Repr

/-- `HashMap::get`: value of the first (unique) entry with the given key. -/
def lookupCat : List (String × List ThreadHandle) → String → Option (List ThreadHandle)
  | [], _ => none
  | (k, v) :: rest, c => if k = c then some v else lookupCat rest c

/-- `get_mut(category).unwrap().push(th)`: append a handle to the vec stored
under the key (the key is present when this is called). -/
def pushCat : List (String × List ThreadHandle) → String → ThreadHandle → List (String × List ThreadHandle)
  | [], _, _ => []
  | (k, v) :: rest, c, th => if k = c then (k, v ++ [th]) :: rest else (k, v) :: pushCat rest c th

/-- In-place replacement of the vec stored under a key (mutation through
`get`/`get_mut`). -/
def updateCat : List (String × List ThreadHandle) → String → List ThreadHandle → List (String × List ThreadHandle)
  | [], _, _ => []
  | (k, v) :: rest, c, new => if k = c then (k, new) :: rest else (k, v) :: updateCat rest c new

/-- `HashMap::remove(category)`: drop the entry with the given key. -/
def eraseCat : List (String × List ThreadHandle) → String → List (String × List ThreadHandle)
  | [], _ => []
  | (k, v) :: rest, c => if k = c then eraseCat rest c else (k, v) :: eraseCat rest c

/-- `EcstaticSystems::new()`. -/
def EcstaticSystems.new : EcstaticSystems :=
  { handles := [], invocations := 0 }

/-- `th.sx.as_ref().unwrap().send(())`: panics (`none`) when the sender is
absent (retired handle); otherwise one token enters the channel. -/
def sendToken (th : ThreadHandle) : Option ThreadHandle :=
  match th.sx with
  | some _ => some { th with sent := th.sent + 1 }
  | none => none

/-- The loop body of `signal`: send one token through each handle in the
category's vec, panicking (`none`) at the first retired handle. -/
def sendAll : List ThreadHandle → Option (List ThreadHandle)
  | [] => some []
  | th :: rest =>
      match sendToken th with
      | none => none
      | some th2 =>
          match sendAll rest with
          | none => none
          | some rest2 => some (th2 :: rest2)

/-- `EcstaticSystems::signal`: `self.handles.get(category).unwrap()` panics
(`none`) on an unknown category, before any send; otherwise every handle in
the category receives one token (panicking mid-loop if one is retired). -/
def EcstaticSystems.signal (sys : EcstaticSystems) (category : String) : Option EcstaticSystems :=
  match lookupCat sys.handles category with
  | none => none
  | some ths =>
      (sendAll ths).map fun ths2 =>
        { sys with handles := updateCat sys.handles category ths2 }

/-- The loop body of `signal_all`: call `self.signal(k)` for each key `k`,
propagating a panic. -/
def EcstaticSystems.signalKeys (sys : EcstaticSystems) : List String → Option EcstaticSystems
  | [] => some sys
  | k :: rest =>
      match sys.signal k with
      | none => none
      | some sys2 => sys2.signalKeys rest

/-- `EcstaticSystems::signal_all`: `for k in self.handles.keys() { self.signal(k); }`. -/
def EcstaticSystems.signal_all (sys : EcstaticSystems) : Option EcstaticSystems :=
  sys.signalKeys (sys.handles.map Prod.fst)

/-- `EcstaticSystems::static_system_create`: allocate a bounded channel of
capacity 60, spawn the worker loop, return a live handle.  `f_panics`
abstracts the supplied callback (see the module docstring). -/
def EcstaticSystems.static_system_create (f_panics : Bool) : ThreadHandle :=
  { sx := some ()
    join_handle := some ()
    capacity := sync_channel_capacity
    sent := 0
    panics := f_panics }

/-- `EcstaticSystems::lazy_init_category`: insert an empty vec for the key
when it is absent. -/
def EcstaticSystems.lazy_init_category (sys : EcstaticSystems) (category : String) : EcstaticSystems :=
  let inited := (lookupCat sys.handles category).isSome
  if inited then sys
  else { sys with handles := sys.handles ++ [(category, [])] }

/-- `EcstaticSystems::register_static`: create a handle, lazily initialise
the category, push the handle onto the category's vec. -/
def EcstaticSystems.register_static (sys : EcstaticSystems) (category : String) (f_panics : Bool) : EcstaticSystems :=
  let th := EcstaticSystems.static_system_create f_panics
  let sys2 := sys.lazy_init_category category
  { sys2 with handles := pushCat sys2.handles category th }

/-- Callback invocations this worker has completed when its thread is
observed at join time: one per token received, except that a panicking
callback kills the thread during the first invocation. -/
def ThreadHandle.invocationsOnJoin (th : ThreadHandle) : Nat :=
  if th.panics then min th.sent 1 else th.sent

/-- Whether `JoinHandle::join()` returns `Err` for this worker: the thread
panicked iff its callback panicked on some invocation. -/
def ThreadHandle.joinResultErr (th : ThreadHandle) : Bool :=
  th.panics && decide (0 < th.sent)

/-- `join_handle.take().unwrap().join()`: panics (`none`) when the join
handle is absent; blocks forever (also `none`, unreachable in the registry)
when the channel is still open.  On success returns the retired handle, the
number of callback invocations the worker completed, and whether `join()`
returned `Err` (worker panicked). -/
def ThreadHandle.join (th : ThreadHandle) : Option (ThreadHandle × Nat × Bool) :=
  match th.join_handle, th.sx with
  | some _, none => some ({ th with join_handle := none }, th.invocationsOnJoin, th.joinResultErr)
  | _, _ => none

/-- The loop body of `drop_join_category`: for each handle, take it, drop its
sender (closing the channel) and join its thread, accumulating the callback
invocations the joined workers performed.  The `Err`/`Ok` result of `join()`
is discarded, exactly as in the source. -/
def drainHandles : List ThreadHandle → Option Nat
  | [] => some 0
  | th :: rest => do
      let closed := { th with sx := none }
      let (_, n, _) ← closed.join
      let m ← drainHandles rest
      pure (n + m)

/-- `EcstaticSystems::drop_join_category`: if the category exists, drop every
sender and join every thread (crediting their invocations), then remove the
key unconditionally. -/
def EcstaticSystems.drop_join_category (sys : EcstaticSystems) (category : String) : Option EcstaticSystems :=
  match lookupCat sys.handles category with
  | none => some { sys with handles := eraseCat sys.handles category }
  | some ths =>
      (drainHandles ths).map fun n =>
        { handles := eraseCat sys.handles category
          invocations := sys.invocations + n }

/-- Iterated registration (a sequence of `register_static` calls to one
category, one per callback). -/
def registerAll (sys : EcstaticSystems) (c : String) : List Bool → EcstaticSystems
  | [] => sys
  | fp :: rest => registerAll (sys.register_static c fp) c rest

/-- Iterated direct send into one handle's channel (`th.sx.as_ref().unwrap().send(())`
in a loop, as in the `test_static_system_create` scenario). -/
def sendRepeat : ThreadHandle → Nat → Option ThreadHandle
  | th, 0 => some th
  | th, k + 1 => (sendToken th).bind fun th2 => sendRepeat th2 k

/-! ### Association-list lemmas -/

theorem lookupCat_eraseCat_self (hs : List (String × List ThreadHandle)) (c : String) :
    lookupCat (eraseCat hs c) c = none := by
  induction hs with
  | nil => rfl
  | cons kv rest ih =>
      obtain ⟨k, v⟩ := kv
      by_cases hk : k = c
      · simpa [eraseCat, hk] using ih
      · simpa [eraseCat, hk, lookupCat] using ih

theorem lookupCat_eraseCat_ne (hs : List (String × List ThreadHandle)) {c d : String}
    (h : d ≠ c) : lookupCat (eraseCat hs c) d = lookupCat hs d := by
  induction hs with
  | nil => rfl
  | cons kv rest ih =>
      obtain ⟨k, v⟩ := kv
      have hcd : ¬c = d := fun e => h e.symm
      by_cases hk : k = c
      · simpa [eraseCat, hk, lookupCat, hcd] using ih
      · by_cases hkd : k = d
        · simp [eraseCat, hk, lookupCat, hkd, h]
        · simpa [eraseCat, hk, lookupCat, hkd] using ih

theorem eraseCat_of_lookup_none (hs : List (String × List ThreadHandle)) (c : String)
    (h : lookupCat hs c = none) : eraseCat hs c = hs := by
  induction hs with
  | nil => rfl
  | cons kv rest ih =>
      obtain ⟨k, v⟩ := kv
      by_cases hk : k = c
      · simp [lookupCat, hk] at h
      · simp [lookupCat, hk] at h
        simp [eraseCat, hk]
        exact ih h

theorem lookupCat_append_left (hs l : List (String × List ThreadHandle)) {c : String}
    {v : List ThreadHandle} (h : lookupCat hs c = some v) :
    lookupCat (hs ++ l) c = some v := by
  induction hs with
  | nil => simp [lookupCat] at h
  | cons kv rest ih =>
      obtain ⟨k, w⟩ := kv
      by_cases hk : k = c
      · simp [lookupCat, hk] at h ⊢
        exact h
      · simp [lookupCat, hk] at h ⊢
        exact ih h

theorem lookupCat_append_right (hs l : List (String × List ThreadHandle)) {c : String}
    (h : lookupCat hs c = none) : lookupCat (hs ++ l) c = lookupCat l c := by
  induction hs with
  | nil => rfl
  | cons kv rest ih =>
      obtain ⟨k, w⟩ := kv
      by_cases hk : k = c
      · simp [lookupCat, hk] at h
      · simp [lookupCat, hk] at h ⊢
        exact ih h

theorem lookupCat_pushCat_self (hs : List (String × List ThreadHandle)) {c : String}
    {v : List ThreadHandle} (th : ThreadHandle) (h : lookupCat hs c = some v) :
    lookupCat (pushCat hs c th) c = some (v ++ [th]) := by
  induction hs with
  | nil => simp [lookupCat] at h
  | cons kv rest ih =>
      obtain ⟨k, w⟩ := kv
      by_cases hk : k = c
      · simp [lookupCat, pushCat, hk] at h ⊢
        exact h
      · simp [lookupCat, pushCat, hk] at h ⊢
        exact ih h

theorem lookupCat_pushCat_ne (hs : List (String × List ThreadHandle)) {c d : String}
    (th : ThreadHandle) (h : d ≠ c) :
    lookupCat (pushCat hs c th) d = lookupCat hs d := by
  induction hs with
  | nil => rfl
  | cons kv rest ih =>
      obtain ⟨k, w⟩ := kv
      have hcd : ¬c = d := fun e => h e.symm
      by_cases hk : k = c
      · simp [pushCat, lookupCat, hk, hcd]
      · by_cases hkd : k = d
        · simp [pushCat, lookupCat, hk, hkd, h]
        · simp [pushCat, lookupCat, hk, hkd]
          exact ih

theorem pushCat_append_right (hs l : List (String × List ThreadHandle)) {c : String}
    (th : ThreadHandle) (h : lookupCat hs c = none) :
    pushCat (hs ++ l) c th = hs ++ pushCat l c th := by
  induction hs with
  | nil => rfl
  | cons kv rest ih =>
      obtain ⟨k, w⟩ := kv
      by_cases hk : k = c
      · simp [lookupCat, hk] at h
      · simp [lookupCat, hk] at h
        simp [pushCat, hk]
        exact ih h

theorem lookupCat_updateCat_self (hs : List (String × List ThreadHandle)) {c : String}
    {v : List ThreadHandle} (new : List ThreadHandle) (h : lookupCat hs c = some v) :
    lookupCat (updateCat hs c new) c = some new := by
  induction hs with
  | nil => simp [lookupCat] at h
  | cons kv rest ih =>
      obtain ⟨k, w⟩ := kv
      by_cases hk : k = c
      · simp [lookupCat, updateCat, hk]
      · simp [lookupCat, updateCat, hk] at h ⊢
        exact ih h

theorem lookupCat_updateCat_ne (hs : List (String × List ThreadHandle)) {c d : String}
    (new : List ThreadHandle) (h : d ≠ c) :
    lookupCat (updateCat hs c new) d = lookupCat hs d := by
  induction hs with
  | nil => rfl
  | cons kv rest ih =>
      obtain ⟨k, w⟩ := kv
      have hcd : ¬c = d := fun e => h e.symm
      by_cases hk : k = c
      · simp [updateCat, lookupCat, hk, hcd]
      · by_cases hkd : k = d
        · simp [updateCat, lookupCat, hk, hkd, h]
        · simp [updateCat, lookupCat, hk, hkd]
          exact ih

/-! ### Operation-level lemmas -/

theorem register_static_handles_absent (sys : EcstaticSystems) (c : String) (fp : Bool)
    (h : lookupCat sys.handles c = none) :
    (sys.register_static c fp).handles
      = sys.handles ++ [(c, [EcstaticSystems.static_system_create fp])] := by
  unfold EcstaticSystems.register_static EcstaticSystems.lazy_init_category
  simp [h]
  rw [pushCat_append_right _ _ _ h]
  simp [pushCat]

theorem register_static_handles_present (sys : EcstaticSystems) (c : String) (fp : Bool)
    {v : List ThreadHandle} (h : lookupCat sys.handles c = some v) :
    (sys.register_static c fp).handles
      = pushCat sys.handles c (EcstaticSystems.static_system_create fp) := by
  unfold EcstaticSystems.register_static EcstaticSystems.lazy_init_category
  simp [h]

theorem register_static_invocations (sys : EcstaticSystems) (c : String) (fp : Bool) :
    (sys.register_static c fp).invocations = sys.invocations := by
  unfold EcstaticSystems.register_static EcstaticSystems.lazy_init_category
  by_cases h : (lookupCat sys.handles c).isSome <;> simp [h]

theorem lookupCat_register_self (sys : EcstaticSystems) (c : String) (fp : Bool) :
    lookupCat (sys.register_static c fp).handles c
      = some ((lookupCat sys.handles c).getD [] ++ [EcstaticSystems.static_system_create fp]) := by
  cases h : lookupCat sys.handles c with
  | none =>
      rw [register_static_handles_absent sys c fp h, lookupCat_append_right _ _ h]
      simp [lookupCat]
  | some v =>
      rw [register_static_handles_present sys c fp h]
      simpa using lookupCat_pushCat_self sys.handles _ h

theorem lookupCat_register_ne (sys : EcstaticSystems) {c d : String} (fp : Bool)
    (h : d ≠ c) :
    lookupCat (sys.register_static c fp).handles d = lookupCat sys.handles d := by
  cases hc : lookupCat sys.handles c with
  | none =>
      rw [register_static_handles_absent sys c fp hc]
      cases hd : lookupCat sys.handles d with
      | some w => rw [lookupCat_append_left _ _ hd]
      | none =>
          have hcd : ¬c = d := fun e => h e.symm
          rw [lookupCat_append_right _ _ hd]
          simp [lookupCat, hcd]
  | some v =>
      rw [register_static_handles_present sys c fp hc]
      exact lookupCat_pushCat_ne _ _ h

theorem sendAll_retired {ths : List ThreadHandle} {th : ThreadHandle}
    (hm : th ∈ ths) (hr : th.sx = none) : sendAll ths = none := by
  induction ths with
  | nil => cases hm
  | cons a rest ih =>
      rcases List.mem_cons.mp hm with h1 | h2
      · subst h1
        simp [sendAll, sendToken, hr]
      · cases ha : sendToken a with
        | none => simp [sendAll, ha]
        | some a2 => simp [sendAll, ha, ih h2]

theorem sendAll_live (ths : List ThreadHandle)
    (h : ∀ th ∈ ths, th.sx = some ()) :
    sendAll ths = some (ths.map fun th => { th with sent := th.sent + 1 }) := by
  induction ths with
  | nil => rfl
  | cons a rest ih =>
      have ha := h a (List.mem_cons_self a rest)
      have hrest := ih fun th hm => h th (List.mem_cons_of_mem a hm)
      simp [sendAll, sendToken, ha, hrest]

theorem drainHandles_live (ths : List ThreadHandle)
    (h : ∀ th ∈ ths, th.join_handle = some ()) :
    drainHandles ths = some (ths.map ThreadHandle.invocationsOnJoin).sum := by
  induction ths with
  | nil => rfl
  | cons a rest ih =>
      have ha := h a (List.mem_cons_self a rest)
      have hrest := ih fun th hm => h th (List.mem_cons_of_mem a hm)
      simp [drainHandles, ThreadHandle.join, ha, hrest, ThreadHandle.invocationsOnJoin,
        ThreadHandle.joinResultErr]

theorem drop_join_of_lookup_none (sys : EcstaticSystems) (c : String)
    (h : lookupCat sys.handles c = none) :
    sys.drop_join_category c = some sys := by
  simp [EcstaticSystems.drop_join_category, h, eraseCat_of_lookup_none _ _ h]

theorem drop_join_handles (sys sys' : EcstaticSystems) (c : String)
    (h : sys.drop_join_category c = some sys') :
    sys'.handles = eraseCat sys.handles c := by
  unfold EcstaticSystems.drop_join_category at h
  cases hc : lookupCat sys.handles c with
  | none =>
      rw [hc] at h
      simp at h
      rw [← h]
  | some ths =>
      rw [hc] at h
      simp at h
      obtain ⟨n, _, hEq⟩ := h
      rw [← hEq]

theorem registerAll_invocations (sys : EcstaticSystems) (c : String) (fs : List Bool) :
    (registerAll sys c fs).invocations = sys.invocations := by
  induction fs generalizing sys with
  | nil => rfl
  | cons fp rest ih =>
      calc (registerAll (sys.register_static c fp) c rest).invocations
          = (sys.register_static c fp).invocations := ih _
        _ = sys.invocations := register_static_invocations sys c fp

theorem lookupCat_registerAll_self (sys : EcstaticSystems) (c : String) (fs : List Bool)
    {acc : List ThreadHandle} (h : lookupCat sys.handles c = some acc) :
    lookupCat (registerAll sys c fs).handles c
      = some (acc ++ fs.map EcstaticSystems.static_system_create) := by
  induction fs generalizing sys acc with
  | nil => simpa using h
  | cons fp rest ih =>
      have h1 : lookupCat (sys.register_static c fp).handles c
          = some (acc ++ [EcstaticSystems.static_system_create fp]) := by
        rw [lookupCat_register_self]
        simp [h]
      have h2 := ih _ h1
      simpa [registerAll, List.append_assoc] using h2

theorem sendRepeat_live (K : Nat) (th : ThreadHandle) (h : th.sx = some ()) :
    sendRepeat th K = some { th with sent := th.sent + K } := by
  induction K generalizing th with
  | zero => simp [sendRepeat]
  | succ k ih =>
      have h2 : ({ th with sent := th.sent + 1 } : ThreadHandle).sx = some () := h
      have hstep : sendRepeat th (k + 1) = sendRepeat { th with sent := th.sent + 1 } k := by
        simp [sendRepeat, sendToken, h]
      rw [hstep, ih _ h2]
      congr 1
      simp only [ThreadHandle.mk.injEq, and_true, true_and]
      omega

theorem signalKeys_eq_foldlM (sys : EcstaticSystems) (ks : List String) :
    sys.signalKeys ks = ks.foldlM EcstaticSystems.signal sys := by
  induction ks generalizing sys with
  | nil => rfl
  | cons k rest ih =>
      cases h : sys.signal k with
      | none => simp [EcstaticSystems.signalKeys, h]
      | some sys2 => simp [EcstaticSystems.signalKeys, h, ih]

theorem sum_map_one (fs : List Bool) : (fs.map fun _ => (1 : Nat)).sum = fs.length := by
  induction fs with
  | nil => rfl
  | cons a rest ih =>
      simp [ih]
      omega

theorem sum_invocations_bumped (fs : List Bool) :
    (((fs.map EcstaticSystems.static_system_create).map
        (fun th => { th with sent := th.sent + 1 })).map
          ThreadHandle.invocationsOnJoin).sum = fs.length := by
  induction fs with
  | nil => rfl
  | cons g rest ih =>
      have h1 : ThreadHandle.invocationsOnJoin
          { EcstaticSystems.static_system_create g with
              sent := (EcstaticSystems.static_system_create g).sent + 1 } = 1 := by
        cases g <;> decide
      simp only [List.map_cons, List.sum_cons, List.length_cons, h1, ih]
      omega

/-! ### Claim theorems -/

/-- Claim C4: `signal` on a category that has never been registered (or has
already been torn down, which removes its key) panics — `self.handles.get(category).unwrap()`
fires before the send loop starts, so zero callback invocations are
performed and no channel state is changed (in the embedding the panicked
call yields `none` without producing any successor state). -/
theorem C4_signal_unknown_category (sys : EcstaticSystems) (c : String)
    (h : lookupCat sys.handles c = none) :
    sys.signal c = none := by
  simp [EcstaticSystems.signal, h]

theorem C4_signal_unknown_category_witness :
    lookupCat EcstaticSystems.new.handles "ghost" = none ∧
    EcstaticSystems.new.signal "ghost" = none :=
  ⟨rfl, C4_signal_unknown_category EcstaticSystems.new "ghost" rfl⟩

/-- Claim C5: teardown is idempotent per category — if `drop_join_category c`
returned a state, running it again on that state returns the very same state,
and tearing down a category that is not in the mapping is a no-op (`some` of
the unchanged registry), not an error. -/
theorem C5_teardown_idempotent (sys sys' : EcstaticSystems) (c : String) :
    (sys.drop_join_category c = some sys' → sys'.drop_join_category c = some sys') ∧
    (lookupCat sys.handles c = none → sys.drop_join_category c = some sys) := by
  constructor
  · intro h
    have hh := drop_join_handles sys sys' c h
    have hnone : lookupCat sys'.handles c = none := by
      rw [hh]
      exact lookupCat_eraseCat_self _ _
    exact drop_join_of_lookup_none _ _ hnone
  · intro h
    exact drop_join_of_lookup_none _ _ h

theorem C5_teardown_idempotent_witness :
    EcstaticSystems.new.drop_join_category "a" = some EcstaticSystems.new ∧
    (EcstaticSystems.new.register_static "a" false).drop_join_category "b"
      = some (EcstaticSystems.new.register_static "a" false) :=
  ⟨(C5_teardown_idempotent (EcstaticSystems.new.register_static "a" false)
      EcstaticSystems.new "a").1 (by decide),
   (C5_teardown_idempotent (EcstaticSystems.new.register_static "a" false)
      (EcstaticSystems.new.register_static "a" false) "b").2 (by decide)⟩

/-- Claim C6: after a teardown returns, the category key is entirely absent
from the mapping — `drop_join_category` never leaves the key mapped to an
empty (or any) vec. -/
theorem C6_teardown_removes_key (sys sys' : EcstaticSystems) (c : String)
    (h : sys.drop_join_category c = some sys') :
    lookupCat sys'.handles c = none := by
  rw [drop_join_handles sys sys' c h]
  exact lookupCat_eraseCat_self _ _

theorem C6_teardown_removes_key_witness :
    lookupCat EcstaticSystems.new.handles "a" = none :=
  C6_teardown_removes_key (EcstaticSystems.new.register_static "a" false)
    EcstaticSystems.new "a" (by decide)

/-- Claim C9: signalling a category that contains a retired handle (one whose
sender is absent) fails loudly — `th.sx.as_ref().unwrap()` panics rather than
silently skipping the handle. -/
theorem C9_signal_retired_handle_panics (sys : EcstaticSystems) (c : String)
    (ths : List ThreadHandle) (th : ThreadHandle)
    (hc : lookupCat sys.handles c = some ths) (hm : th ∈ ths) (hr : th.sx = none) :
    sys.signal c = none := by
  simp [EcstaticSystems.signal, hc, sendAll_retired hm hr]

theorem C9_signal_retired_handle_panics_witness :
    EcstaticSystems.signal
      { handles := [("c", [{ sx := none, join_handle := none, capacity := 60,
                             sent := 0, panics := false }])]
        invocations := 0 } "c" = none :=
  C9_signal_retired_handle_panics
    { handles := [("c", [{ sx := none, join_handle := none, capacity := 60,
                           sent := 0, panics := false }])]
      invocations := 0 } "c"
    [{ sx := none, join_handle := none, capacity := 60, sent := 0, panics := false }]
    { sx := none, join_handle := none, capacity := 60, sent := 0, panics := false }
    (by decide) (by decide) rfl

/-- Claim C10: tearing down one category leaves every other category's entry
untouched — for any distinct key `d`, the lookup of `d` after
`drop_join_category c` returns exactly what it returned before. -/
theorem C10_teardown_frame (sys sys' : EcstaticSystems) (c d : String)
    (hne : d ≠ c) (h : sys.drop_join_category c = some sys') :
    lookupCat sys'.handles d = lookupCat sys.handles d := by
  rw [drop_join_handles sys sys' c h]
  exact lookupCat_eraseCat_ne _ hne

theorem C10_teardown_frame_witness :
    lookupCat
      (EcstaticSystems.new.register_static "b" false).handles "b"
    = lookupCat
      ((EcstaticSystems.new.register_static "a" false).register_static "b" false).handles "b" := by
  have h := C10_teardown_frame
    ((EcstaticSystems.new.register_static "a" false).register_static "b" false)
    (EcstaticSystems.new.register_static "b" false) "a" "b"
    (by decide) (by decide)
  exact h

/-- Claim C7: `signal_all` is the sequential composition of one `signal` call
per key currently present in the mapping (in the mapping's iteration order),
and on a registry with no categories it is a safe no-op. -/
theorem C7_signal_all_equiv (sys : EcstaticSystems) :
    sys.signal_all = (sys.handles.map Prod.fst).foldlM EcstaticSystems.signal sys ∧
    (sys.handles = [] → sys.signal_all = some sys) := by
  constructor
  · exact signalKeys_eq_foldlM sys _
  · intro h
    simp [EcstaticSystems.signal_all, h, EcstaticSystems.signalKeys]

theorem C7_signal_all_equiv_witness :
    EcstaticSystems.new.signal_all = some EcstaticSystems.new :=
  (C7_signal_all_equiv EcstaticSystems.new).2 rfl

/-- Claim C8: `register_static` lazily creates the category when absent and
appends exactly one new handle to its vec — the category's vec afterwards is
its previous vec (empty if the category was absent) plus the one new live
handle (sender and join handle both present) — while the entry of every other
category is unchanged. -/
theorem C8_register_frame (sys : EcstaticSystems) (c : String) (fp : Bool) :
    lookupCat (sys.register_static c fp).handles c
      = some ((lookupCat sys.handles c).getD []
          ++ [EcstaticSystems.static_system_create fp]) ∧
    (EcstaticSystems.static_system_create fp).sx = some () ∧
    (EcstaticSystems.static_system_create fp).join_handle = some () ∧
    ∀ d, d ≠ c → lookupCat (sys.register_static c fp).handles d = lookupCat sys.handles d := by
  refine ⟨lookupCat_register_self sys c fp, rfl, rfl, ?_⟩
  intro d hd
  exact lookupCat_register_ne sys fp hd

theorem C8_register_frame_witness :
    lookupCat (EcstaticSystems.new.register_static "a" false).handles "a"
      = some ((lookupCat EcstaticSystems.new.handles "a").getD []
          ++ [EcstaticSystems.static_system_create false]) ∧
    lookupCat (EcstaticSystems.new.register_static "a" false).handles "b"
      = lookupCat EcstaticSystems.new.handles "b" :=
  ⟨(C8_register_frame EcstaticSystems.new "a" false).1,
   (C8_register_frame EcstaticSystems.new "a" false).2.2.2 "b" (by decide)⟩

/-- Claim C3 (code defect, kept as the code behaves): register one worker
whose callback panics, signal it once, then tear the category down.  The
worker's thread dies in the panic, so `join()` returns `Err`
(`joinResultErr = true` for the joined handle), yet `drop_join_category`
discards that result and returns successfully — the teardown caller receives
no error and cannot distinguish the crashed worker from a cleanly finished
one, contradicting the spec's requirement that the panic surface as a
distinct error. -/
theorem C3_join_result_discarded :
    ((EcstaticSystems.new.register_static "testing" true).signal "testing" |>.bind
        fun s => s.drop_join_category "testing")
      = some { handles := [], invocations := 1 } ∧
    ThreadHandle.joinResultErr
      { sx := none, join_handle := some (), capacity := 60, sent := 1, panics := true } = true := by
  constructor
  · decide
  · rfl

/-- Claim C2: create one worker handle directly (its channel has the bounded
capacity 60), push `K` tokens through its sender, drop the sender (closing
the channel) and join the thread: the join returns after exactly `K` callback
invocations and a clean (`Err`-free) exit — no token is lost, for every `K`,
including `K = 0` and `K` beyond the buffer capacity (a full buffer only
blocks the sender; it never drops a token). -/
theorem C2_direct_send_no_loss (K : Nat) :
    ∃ th2 : ThreadHandle,
      sendRepeat (EcstaticSystems.static_system_create false) K = some th2 ∧
      th2.capacity = 60 ∧
      ThreadHandle.join { th2 with sx := none }
        = some ({ th2 with sx := none, join_handle := none }, K, false) := by
  refine ⟨{ EcstaticSystems.static_system_create false with sent := K }, ?_, rfl, ?_⟩
  · have h := sendRepeat_live K (EcstaticSystems.static_system_create false) rfl
    simpa [EcstaticSystems.static_system_create] using h
  · simp [ThreadHandle.join, ThreadHandle.invocationsOnJoin, ThreadHandle.joinResultErr,
      EcstaticSystems.static_system_create]

/-- Claim C1: starting from any registry in which category `c` is absent,
perform one `register_static` call per entry of `fs` (one per worker, each
with its own callback; `N = fs.length ≥ 1`), then one `signal c`: the signal
succeeds, the next `drop_join_category c` returns, and by the time it returns
exactly `N` callback invocations have occurred — each registered worker
received exactly one token and performed exactly one invocation (a panicking
callback also performs exactly its one invocation before the thread dies). -/
theorem C1_register_signal_teardown (sys : EcstaticSystems) (c : String) (fs : List Bool)
    (habs : lookupCat sys.handles c = none) (hne : fs ≠ []) :
    ∃ sys1 sys2 : EcstaticSystems,
      (registerAll sys c fs).signal c = some sys1 ∧
      sys1.drop_join_category c = some sys2 ∧
      sys2.invocations = sys.invocations + fs.length := by
  have hL : lookupCat (registerAll sys c fs).handles c
      = some (fs.map EcstaticSystems.static_system_create) := by
    cases fs with
    | nil => exact absurd rfl hne
    | cons f0 rest =>
        have h1 : lookupCat (sys.register_static c f0).handles c
            = some [EcstaticSystems.static_system_create f0] := by
          rw [lookupCat_register_self, habs]
          rfl
        have h2 := lookupCat_registerAll_self (sys.register_static c f0) c rest h1
        simpa [registerAll] using h2
  have hlive : ∀ th ∈ fs.map EcstaticSystems.static_system_create, th.sx = some () := by
    intro th hm
    obtain ⟨fp, _, rfl⟩ := List.mem_map.mp hm
    rfl
  have hsend := sendAll_live _ hlive
  refine ⟨{ registerAll sys c fs with
            handles := updateCat (registerAll sys c fs).handles c
              ((fs.map EcstaticSystems.static_system_create).map
                fun th => { th with sent := th.sent + 1 }) },
          { handles := eraseCat (updateCat (registerAll sys c fs).handles c
              ((fs.map EcstaticSystems.static_system_create).map
                fun th => { th with sent := th.sent + 1 })) c
            invocations := (registerAll sys c fs).invocations + fs.length },
          ?_, ?_, ?_⟩
  · simp [EcstaticSystems.signal, hL, hsend]
  · have hlook1 : lookupCat
        (updateCat (registerAll sys c fs).handles c
          ((fs.map EcstaticSystems.static_system_create).map
            fun th => { th with sent := th.sent + 1 })) c
        = some ((fs.map EcstaticSystems.static_system_create).map
            fun th => { th with sent := th.sent + 1 }) :=
      lookupCat_updateCat_self _ _ hL
    have hjoin : ∀ th ∈ (fs.map EcstaticSystems.static_system_create).map
        (fun th => { th with sent := th.sent + 1 }), th.join_handle = some () := by
      intro th hm
      obtain ⟨th0, hm0, rfl⟩ := List.mem_map.mp hm
      obtain ⟨fp, _, rfl⟩ := List.mem_map.mp hm0
      rfl
    have hdrain := drainHandles_live _ hjoin
    have hsum := sum_invocations_bumped fs
    simp only [List.map_map] at hlook1 hdrain hsum
    simp [EcstaticSystems.drop_join_category, hlook1, hdrain, hsum]
  · simp [registerAll_invocations]

theorem C1_register_signal_teardown_witness :
    ∃ sys1 sys2 : EcstaticSystems,
      (registerAll EcstaticSystems.new "testing" [false, false]).signal "testing" = some sys1 ∧
      sys1.drop_join_category "testing" = some sys2 ∧
      sys2.invocations = EcstaticSystems.new.invocations + 2 :=
  C1_register_signal_teardown EcstaticSystems.new "testing" [false, false] rfl (by decide)
